import Mathlib

/-
Shallow embedding of the build/artifact cache manager of reverse_ssh_ntlm
(internal/server/webserver/buildmanager.go) and of the NTLM proxy credential
parser (internal/client/proxy_ntlm.go).

Modelling conventions:
* Go strings are Lean `String`s (the credential parser additionally works on
  `List Char`, since Go indexes strings byte-wise and all separators involved
  are ASCII).
* The Go map `map[string]file` is an association list `List (String × file)`
  with first-match lookup; map assignment and `delete` are modelled by
  `Cache.insert` / `Cache.eraseKey` below.
* External effects (the random source `internal.RandomString`, `git describe`,
  the `go` compiler invocation, `os.Stat`/`os.Mkdir`/`os.Remove`, the
  durable snapshot file) are explicit oracle parameters, so each Go function
  becomes a pure function from its inputs, the oracle outcomes and the
  current manager state to its result and the next state.
* The JSON snapshot written by `writeCache` and read back at startup is
  modelled by a small JSON value type; `json.Marshal` of the cache map is
  `encodeCache` (Go additionally sorts object keys in the emitted text, which
  does not affect the decoded map) and `json.Unmarshal` into the (empty at
  startup) map is `decodeCache`.
-/

/-- JSON values, as far as the snapshot schema needs them: the snapshot is an
object mapping each lookup key to an object of string fields plus the integer
`Hits` field. -/
inductive Json where
  | str : String → Json
  | int : Int → Json
  | obj : List (String × Json) → Json

namespace webserver

/-- Go's 64-bit signed `int` arithmetic: reduce a value into
`[-2^63, 2^63)`.  The one arithmetic operation this embedding performs on a
Go `int` — the `Hits` increment in `Get` — goes through this reduction, so
the wrap-around of `Hits++` at `MaxInt64` is preserved. -/
def wrapInt64 (x : Int) : Int :=
  (x + 9223372036854775808) % 18446744073709551616 - 9223372036854775808

/-- The cached artifact record, from buildmanager.go lines 18-25.  Go's `int`
is carried as `Int`; the increment in `Get` applies `wrapInt64`, matching
the fixed-width wrap-around of the source. -/
structure file where
  Path : String
  Goos : String
  Goarch : String
  FileType : String
  Hits : Int
  Version : String
deriving DecidableEq

/-- The in-memory cache: Go `map[string]file`, as an association list with
first-match lookup. -/
abbrev Cache := List (String × file)

/-- Go map assignment `cache[name] = f`: the key now maps to `f`, every other
key is untouched. -/
def Cache.insert (k : String) (v : file) (c : Cache) : Cache :=
  (k, v) :: c.filter (fun e => !(e.1 == k))

/-- Go `delete(cache, key)`. -/
def Cache.eraseKey (k : String) (c : Cache) : Cache :=
  c.filter (fun e => !(e.1 == k))

/-- Serialization of one record, following Go's `encoding/json` field layout
for the `file` struct. -/
def encodeFile (f : file) : Json :=
  .obj [("Path", .str f.Path), ("Goos", .str f.Goos), ("Goarch", .str f.Goarch),
        ("FileType", .str f.FileType), ("Hits", .int f.Hits), ("Version", .str f.Version)]

/-- Deserialization of one record: each field is read by name from the JSON
object (Go's `json.Unmarshal` is field-order independent and leaves the zero
value for an absent field). -/
def decodeFile (j : Json) : Option file :=
  match j with
  | .obj fields =>
    let getS : String → Option String := fun k =>
      match fields.lookup k with
      | none => some ""
      | some (.str s) => some s
      | some _ => none
    let getI : String → Option Int := fun k =>
      match fields.lookup k with
      | none => some 0
      | some (.int n) => some n
      | some _ => none
    match getS "Path", getS "Goos", getS "Goarch", getS "FileType",
          getI "Hits", getS "Version" with
    | some p, some o, some a, some t, some h, some v => some ⟨p, o, a, t, h, v⟩
    | _, _, _, _, _, _ => none
  | _ => none

/-- `json.Marshal(cache)` (buildmanager.go line 227): the whole map as one
JSON object. -/
def encodeCache (c : Cache) : Json :=
  .obj (c.map (fun kv => (kv.1, encodeFile kv.2)))

/-- Entry-wise decoding of the snapshot object. -/
def decodeEntries : List (String × Json) → Option Cache
  | [] => some []
  | (k, j) :: rest =>
    match decodeFile j, decodeEntries rest with
    | some f, some c => some ((k, f) :: c)
    | _, _ => none

/-- `json.Unmarshal(contents, &cache)` at startup (buildmanager.go line 286),
into the initially empty map. -/
def decodeCache (j : Json) : Option Cache :=
  match j with
  | .obj entries => decodeEntries entries
  | _ => none

/-- The mutable package state the claims observe: the cache map, the durable
snapshot (contents of `description.json`; `writeCache` copies the encoded map
into it) and the name-completion index (the external trie, modelled by its
set of keys). -/
structure BMState where
  cache : Cache
  snapshot : Json
  autocomplete : List String

/-- Ambient configuration read by `Build`: the webserver flag, the Target
Catalog sets populated at startup, the defaults, the host platform
(`runtime.GOOS`/`runtime.GOARCH`), paths and the inherited process
environment (`os.Environ()`). -/
structure BuildEnv where
  webserverOn : Bool
  validPlatforms : List String
  validArchs : List String
  defaultConnectBack : String
  defaultFingerPrint : String
  hostGoos : String
  hostGoarch : String
  cachePath : String
  internalVersion : String
  projectRoot : String
  baseEnv : List String
deriving DecidableEq

/-- Outcomes of the external effects one `Build` call performs:
`internal.RandomString(16)` for the artifact filename and (when `name` is
empty) for the lookup key (`none` = the random source failed), `git describe
--tags` (`none` = non-zero exit), and the `go build` invocation. -/
structure BuildFx where
  randFilename : Option String
  randName : Option String
  gitDescribe : Option String
  compileOk : Bool
  compileErr : String
  compileOutput : String
deriving DecidableEq

/-- What a successful `Build` hands back, together with the command it ran:
the download URL it returns, and the environment and argument list of the
`go build` invocation (`cmd.Env` / `buildArguments`). -/
structure BuildOut where
  url : String
  cmdEnv : List String
  cmdArgs : List String
deriving DecidableEq

/-- The cross-compiler choice of buildmanager.go lines 127-130: only a Linux
host building a shared object for windows/amd64 gets the mingw toolchain,
every other combination leaves `CC` empty. -/
def crossCompilerFor (hostGoos goos goarch : String) : String :=
  if hostGoos = "linux" ∧ goos = "windows" ∧ goarch = "amd64" then
    "x86_64-w64-mingw32-gcc"
  else ""

/-- `Build` (buildmanager.go lines 40-152).  Error paths return the state
unchanged, mirroring the Go early returns that precede every mutation of the
globals; the success path commits the record, re-encodes the snapshot
(`writeCache`) and registers the key in the completion index.
`os.Chmod` has no observable effect on the modelled state and is omitted. -/
def Build (env : BuildEnv) (fx : BuildFx) (st : BMState)
    (goos goarch suppliedConnectBackAdress fingerprint name : String)
    (shared : Bool) : Except String BuildOut × BMState :=
  if ¬ env.webserverOn then (.error "Web server is not enabled.", st)
  else if goarch ≠ "" ∧ goarch ∉ env.validArchs then
    (.error ("GOARCH supplied is not valid: " ++ goarch), st)
  else if goos ≠ "" ∧ goos ∉ env.validPlatforms then
    (.error ("GOOS supplied is not valid: " ++ goos), st)
  else
    let suppliedConnectBackAdress :=
      if suppliedConnectBackAdress = "" then env.defaultConnectBack
      else suppliedConnectBackAdress
    let fingerprint :=
      if fingerprint = "" then env.defaultFingerPrint else fingerprint
    match fx.randFilename with
    | none => (.error "random source failure", st)
    | some filename =>
      match (if name = "" then fx.randName else some name) with
      | none => (.error "random source failure", st)
      | some name =>
        if (st.cache.lookup name).isSome then
          (.error "This link name is already in use", st)
        else
          let fGoos := if goos ≠ "" then goos else env.hostGoos
          let fGoarch := if goarch ≠ "" then goarch else env.hostGoarch
          let path0 := env.cachePath ++ "/" ++ filename
          let version :=
            match fx.gitDescribe with
            | some v => v
            | none => env.internalVersion ++ " (guess)"
          let fileType := if shared then "shared-object" else "executable"
          let path :=
            if shared then
              (if fGoos ≠ "windows" then path0 ++ ".so" else path0 ++ ".dll")
            else path0
          let f : file := ⟨path, fGoos, fGoarch, fileType, 0, version⟩
          let buildArguments :=
            ["build"] ++
            (if shared then ["-buildmode=c-shared", "-tags=cshared"] else []) ++
            ["-ldflags=-s -w -X main.destination=" ++ suppliedConnectBackAdress ++
               " -X main.fingerprint=" ++ fingerprint ++
               " -X client.Version=" ++ version,
             "-o", path, env.projectRoot ++ "/cmd/client"]
          let cmdEnv :=
            env.baseEnv ++ ["GOOS=" ++ fGoos, "GOARCH=" ++ fGoarch] ++
            (if shared then
               ["CC=" ++ crossCompilerFor env.hostGoos fGoos fGoarch,
                "CGO_ENABLED=1"]
             else ["CGO_ENABLED=0"])
          if ¬ fx.compileOk then
            (.error ("Error: " ++ fx.compileErr ++ "\n" ++ fx.compileOutput), st)
          else
            let newCache := Cache.insert name f st.cache
            (.ok ⟨"http://" ++ suppliedConnectBackAdress ++ "/" ++ name,
                  cmdEnv, buildArguments⟩,
             ⟨newCache, encodeCache newCache, name :: st.autocomplete⟩)

/-- `Get` (buildmanager.go lines 154-168): look the key up, bump the hit
counter in the map (`cacheEntry.Hits++`, 64-bit wrapping arithmetic), return
the bumped record.  No `writeCache` call: the snapshot field is untouched. -/
def Get (st : BMState) (key : String) : Except String file × BMState :=
  match st.cache.lookup key with
  | none => (.error ("Unable to find cache entry: " ++ key), st)
  | some e =>
    let bumped : file :=
      ⟨e.Path, e.Goos, e.Goarch, e.FileType, wrapInt64 (e.Hits + 1), e.Version⟩
    (.ok bumped, ⟨Cache.insert key bumped st.cache, st.snapshot, st.autocomplete⟩)

/-- `Delete` (buildmanager.go lines 208-224).  `removeErr` is the outcome of
`os.Remove` on the artifact file (`some e` = it failed with error `e`); the
map removal, the snapshot rewrite and the completion-index removal happen
before `os.Remove` and regardless of its outcome, whose error is what the
function returns. -/
def Delete (st : BMState) (key : String) (removeErr : Option String) :
    Except String Unit × BMState :=
  match st.cache.lookup key with
  | none => (.error ("Unable to find cache entry: " ++ key), st)
  | some _ =>
    let newCache := Cache.eraseKey key st.cache
    let st' : BMState :=
      ⟨newCache, encodeCache newCache, st.autocomplete.filter (fun n => !(n == key))⟩
    (match removeErr with
     | none => .ok ()
     | some e => .error e, st')

/-- The outcome of one `os.Stat` call: `found isDir` when it succeeded,
`notExist` when it failed with a does-not-exist error, `otherErr` for any
other failure (permission denied, I/O error, ...).  In the two error cases
the returned `FileInfo` is nil. -/
inductive StatRes where
  | found : Bool → StatRes
  | notExist : StatRes
  | otherErr : String → StatRes
deriving DecidableEq

/-- Oracle outcomes for the external effects of `startBuildManager`:
`os.Stat` on the client source directory, `go tool dist list`, `os.Stat` on
the cache path (before and, if it was created, after `os.Mkdir`), the probe
write/delete, and reading the snapshot file (`none` = `os.ReadFile` failed;
`some j` = it returned bytes parsing to the JSON value `j`, with
unparseable bytes modelled as a value `decodeCache` rejects). -/
structure StartWorld where
  clientSourceStat : StatRes
  distListErr : Option String
  distListOutput : String
  cacheStat1 : StatRes
  mkdirErr : Option String
  cacheStat2 : StatRes
  writeTestErr : Option String
  removeTestErr : Option String
  readSnapshot : Option Json

/-- How `startBuildManager` ends: a normal return carrying the Go error
value (`none` = nil) and the resulting package state, or the runtime panic
from calling `IsDir` on a nil `FileInfo`. -/
inductive StartResult where
  | ret : Option String → BMState → StartResult
  | nilPanic : StartResult

/-- Parsing of the `go tool dist list` output (buildmanager.go lines
251-259): split into lines, keep the `os/arch` ones, collect both sides. -/
def parseTargets (output : String) : List String × List String :=
  (output.splitOn "\n").foldl
    (fun acc line =>
      match line.splitOn "/" with
      | [p, a] => (acc.1 ++ [p], acc.2 ++ [a])
      | _ => acc)
    ([], [])

/-- The tail of `startBuildManager` (buildmanager.go lines 270-300), entered
with the `FileInfo` of the cache path in hand: directory check, probe
write/delete, snapshot load (non-fatal on failure), record the cache path.
The loaded entries replace the map, which is empty at startup, and their
keys are registered in the completion index. -/
def startFinish (w : StartWorld) (st : BMState) (cPath : String)
    (isDir : Bool) : StartResult :=
  if ¬ isDir then
    .ret (some ("Cache path '" ++ cPath ++ "' already exists, but is a file instead of directory")) st
  else
    match w.writeTestErr with
    | some e => .ret (some ("Unable to write file into cache directory: " ++ e)) st
    | none =>
      match w.removeTestErr with
      | some e => .ret (some ("Unable to delete file in cache directory: " ++ e)) st
      | none =>
        let loaded : BMState :=
          match w.readSnapshot with
          | none => st
          | some j =>
            match decodeCache j with
            | none => st
            | some m => ⟨m, st.snapshot, st.autocomplete ++ m.map (fun kv => kv.1)⟩
        .ret none loaded

/-- `startBuildManager` (buildmanager.go lines 234-301), up to the Target
Catalog population which it returns alongside the state it would leave (the
catalog sets are separate globals; callers thread them into `BuildEnv`).
After `info, err = os.Stat(cPath)`, only `os.IsNotExist(err)` guards the
mkdir branch, and `info.IsDir()` is then called unconditionally: whenever
the pending stat failed — with any error on the first stat other than
does-not-exist, or with any error on the re-stat after `os.Mkdir` — `info`
is nil and the call is the nil dereference `StartResult.nilPanic`. -/
def startBuildManager (w : StartWorld) (st : BMState) (cPath : String) :
    StartResult × (List String × List String) :=
  match w.clientSourceStat with
  | .found isDir =>
    if ¬ isDir then
      (.ret (some "The server doesnt appear to be in \x7bproject_root\x7d/bin, please put it there.") st,
       ([], []))
    else
      (match w.distListErr with
       | some e =>
         (.ret (some ("Unable to run the go compiler to get a list of compilation targets: " ++ e)) st,
          ([], []))
       | none =>
         let catalog := parseTargets w.distListOutput
         (match w.cacheStat1 with
          | .found isDir1 => (startFinish w st cPath isDir1, catalog)
          | .notExist =>
            (match w.mkdirErr with
             | some e => (.ret (some e) st, catalog)
             | none =>
               match w.cacheStat2 with
               | .found isDir2 => (startFinish w st cPath isDir2, catalog)
               | .notExist => (.nilPanic, catalog)
               | .otherErr _ => (.nilPanic, catalog))
          | .otherErr _ => (.nilPanic, catalog)))
  | .notExist =>
    (.ret (some "The server doesnt appear to be in \x7bproject_root\x7d/bin, please put it there.") st,
     ([], []))
  | .otherErr _ =>
    (.ret (some "The server doesnt appear to be in \x7bproject_root\x7d/bin, please put it there.") st,
     ([], []))

/-- `List` (buildmanager.go lines 170-206), parametrised by the Go standard
library glob matcher `filepath.Match` (an external collaborator): `gm p s`
is `none` when `Match(p, s)` reports `ErrBadPattern`, `some b` when it
returns `(b, nil)`.  The loop ignores match errors (`match, _ :=`), which
`Option.getD false` reproduces, `Match` returning `false` alongside any
error. -/
def List (gm : String → String → Option Bool) (st : BMState) (filter : String) :
    Except String Cache :=
  match gm filter "" with
  | none => .error "Filter is not well formed"
  | some _ =>
    .ok (st.cache.filter (fun e =>
      filter == "" || (gm filter e.1).getD false ||
      (gm filter e.2.Goos).getD false || (gm filter e.2.Goarch).getD false))

end webserver

/-- `b` starts with `a` (helper for expressing that an error message names a
value). -/
def listStarts : List Char → List Char → Bool
  | [], _ => true
  | _ :: _, [] => false
  | a :: as, b :: bs => a == b && listStarts as bs

/-- `needle` occurs contiguously inside `hay`. -/
def listHasSub (needle : List Char) : List Char → Bool
  | [] => needle.isEmpty
  | c :: rest => listStarts needle (c :: rest) || listHasSub needle rest

/-- The string `hay` mentions the string `needle` somewhere. -/
def strMentions (hay needle : String) : Bool :=
  listHasSub needle.data hay.data

namespace client

/-- Go `strings.Split(s, sep)` for a one-character separator, on the
character list of the string: split at every occurrence of `sep`. -/
def splitChar (sep : Char) : List Char → List (List Char)
  | [] => [[]]
  | c :: rest =>
    if c = sep then [] :: splitChar sep rest
    else
      match splitChar sep rest with
      | [] => [[c]]
      | h :: t => (c :: h) :: t

/-- Go `strings.SplitN(s, sep, 2)` for a one-character separator: split at
the first occurrence of `sep` only; a string without `sep` stays whole. -/
def splitFirst (sep : Char) : List Char → List (List Char)
  | [] => [[]]
  | c :: rest =>
    if c = sep then [[], rest]
    else
      match splitFirst sep rest with
      | [] => [[c]]
      | h :: t => (c :: h) :: t

/-- `parseNTLMCreds` (proxy_ntlm.go lines 17-35), on the character list of
the credential string: reject the empty string; split on backslash and
require exactly two parts; split the second part at its first colon and
require a colon to be present; return (domain, user, pass). -/
def parseNTLMCreds (creds : List Char) :
    Except String (List Char × List Char × List Char) :=
  if creds = [] then
    .error "NTLM credentials not provided. Use --ntlm-proxy-creds in format DOMAIN\\USER:PASS"
  else
    match splitChar '\\' creds with
    | [domain, rest] =>
      (match splitFirst ':' rest with
       | [user, pass] => .ok (domain, user, pass)
       | _ => .error ("invalid NTLM credentials format. Expected DOMAIN\\USER:PASS, got " ++ String.mk creds))
    | _ => .error ("invalid NTLM credentials format. Expected DOMAIN\\USER:PASS, got " ++ String.mk creds)

/-- The acceptance shape the claim describes: the credential string splits
as `domain ++ "\\" ++ user ++ ":" ++ pass` where the backslash shown is the
only one in the whole string and the colon shown is the first one after the
backslash (so `user` is colon-free and `pass` may hold further colons but no
backslash). -/
def ntlmShape (s d u p : List Char) : Prop :=
  s = d ++ '\\' :: (u ++ ':' :: p) ∧
  '\\' ∉ d ∧ '\\' ∉ u ∧ '\\' ∉ p ∧ ':' ∉ u

end client

/-! Concrete fixtures used to exercise the definitions on closed inputs. -/

/-- A sample cached record. -/
def f1 : webserver.file := ⟨"/cache/abcd", "linux", "amd64", "executable", 2, "v1.0"⟩

/-- An empty manager state. -/
def st0 : webserver.BMState := ⟨[], .obj [], []⟩

/-- A manager state holding `f1` under key `"a"`. -/
def st1 : webserver.BMState :=
  ⟨[("a", f1)], webserver.encodeCache [("a", f1)], ["a"]⟩

/-- A record whose hit counter sits at `MaxInt64`, as a loaded snapshot can
produce (the startup `json.Unmarshal` accepts any int64 `Hits`). -/
def fMax : webserver.file :=
  ⟨"/cache/abcd", "linux", "amd64", "executable", 9223372036854775807, "v1.0"⟩

/-- A manager state holding `fMax` under key `"a"`. -/
def stMax : webserver.BMState :=
  ⟨[("a", fMax)], webserver.encodeCache [("a", fMax)], ["a"]⟩

/-- A configuration with the webserver on, catalog `{linux, windows} ×
{amd64}`, and a Linux/amd64 host. -/
def env1 : webserver.BuildEnv :=
  ⟨true, ["linux", "windows"], ["amd64"], "host.example:443", "ab12",
   "linux", "amd64", "/cache", "1.0", "/proj", []⟩

/-- The same configuration on a Darwin (non-Windows, amd64) host. -/
def envDarwin : webserver.BuildEnv :=
  ⟨true, ["linux", "windows"], ["amd64"], "host.example:443", "ab12",
   "darwin", "amd64", "/cache", "1.0", "/proj", []⟩

/-- Effect outcomes for a build whose random draws and compilation all
succeed. -/
def fx1 : webserver.BuildFx := ⟨some "f16", some "n16", some "v-git", true, "", ""⟩

/-- A startup world whose first stat of the cache path fails with a
permission error. -/
def wPerm : webserver.StartWorld :=
  ⟨.found true, none, "linux/amd64\nwindows/amd64", .otherErr "permission denied",
   none, .found true, none, none, none⟩

/-- A glob oracle for closed tests: every pattern is well formed and matches
exactly itself. -/
def gmEq : String → String → Option Bool := fun p s => some (p == s)

/-! Helper lemmas about the association-list cache. -/

theorem lookup_filterOut_self (c : webserver.Cache) (k : String) :
    (c.filter (fun e => !(e.1 == k))).lookup k = none := by
  induction c with
  | nil => rfl
  | cons e rest ih =>
    by_cases h : e.1 = k
    · simpa [List.filter_cons, h] using ih
    · have hb : (k == e.1) = false := beq_eq_false_iff_ne.mpr (Ne.symm h)
      have hb2 : (e.1 == k) = false := beq_eq_false_iff_ne.mpr h
      simp [List.filter_cons, hb2, List.lookup, hb, ih]

theorem lookup_filterOut_ne (c : webserver.Cache) (k q : String) (h : q ≠ k) :
    (c.filter (fun e => !(e.1 == k))).lookup q = c.lookup q := by
  induction c with
  | nil => rfl
  | cons e rest ih =>
    by_cases he : e.1 = k
    · have hb : (q == e.1) = false := beq_eq_false_iff_ne.mpr (he ▸ h)
      have hbk : (q == k) = false := beq_eq_false_iff_ne.mpr h
      simp [List.filter_cons, he, List.lookup, hb, hbk, ih]
    · have hb2 : (e.1 == k) = false := beq_eq_false_iff_ne.mpr he
      by_cases hq : q = e.1
      · simp [List.filter_cons, hb2, List.lookup, hq]
      · have hb3 : (q == e.1) = false := beq_eq_false_iff_ne.mpr hq
        simp [List.filter_cons, hb2, List.lookup, hb3, ih]

theorem lookup_insert_self (c : webserver.Cache) (k : String) (v : webserver.file) :
    (webserver.Cache.insert k v c).lookup k = some v := by
  simp [webserver.Cache.insert, List.lookup]

theorem lookup_insert_ne (c : webserver.Cache) (k q : String) (v : webserver.file)
    (h : q ≠ k) :
    (webserver.Cache.insert k v c).lookup q = c.lookup q := by
  have hb : (q == k) = false := beq_eq_false_iff_ne.mpr h
  simp [webserver.Cache.insert, List.lookup, hb, lookup_filterOut_ne c k q h]

theorem lookup_none_filter (c : webserver.Cache) (k : String)
    (p : String × webserver.file → Bool) (h : c.lookup k = none) :
    (c.filter p).lookup k = none := by
  induction c with
  | nil => exact h
  | cons e rest ih =>
    by_cases hq : k = e.1
    · have hb : (k == e.1) = true := beq_iff_eq.mpr hq
      simp [List.lookup, hb] at h
    · have hb : (k == e.1) = false := beq_eq_false_iff_ne.mpr hq
      have h' : rest.lookup k = none := by simpa [List.lookup, hb] using h
      by_cases hp : p e <;> simp [List.filter_cons, hp, List.lookup, hb, ih h']

/-- One record round-trips through the snapshot encoding. -/
theorem decodeFile_encodeFile (f : webserver.file) :
    webserver.decodeFile (webserver.encodeFile f) = some f := rfl

/-- Claim C3: serializing any cache map to the JSON snapshot as `writeCache`
does (`encodeCache`) and deserializing it as startup does (`decodeCache`)
yields the original map back: same keys, and for each key the same path,
operating system, architecture, artifact kind, hit count and version. -/
theorem snapshot_roundtrip (c : webserver.Cache) :
    webserver.decodeCache (webserver.encodeCache c) = some c := by
  induction c with
  | nil => rfl
  | cons kv rest ih =>
    obtain ⟨k, f⟩ := kv
    have hrest : webserver.decodeEntries (rest.map (fun kv => (kv.1, webserver.encodeFile kv.2))) =
        some rest := by
      simpa [webserver.decodeCache, webserver.encodeCache] using ih
    simp [webserver.decodeCache, webserver.encodeCache, webserver.decodeEntries,
      decodeFile_encodeFile, hrest]

/-- Claim C5 (amended): for a key present in the cache, `Get` returns the
record with the hit counter incremented by one in wrapping 64-bit `int`
arithmetic and the other fields intact, stores the bumped record back (a
second call increments again), and never touches the durable snapshot; the
increment is a strict increase whenever the stored counter lies below
`MaxInt64`, but at `MaxInt64` — a value a loaded snapshot can supply —
`Hits++` wraps to `MinInt64` and strictly decreases (see the
counterexample).  `Get` on an absent key fails with the not-found error and
changes nothing. -/
theorem get_spec (st : webserver.BMState) (key : String) :
    (∀ f, st.cache.lookup key = some f →
       (webserver.Get st key).1 =
         .ok ⟨f.Path, f.Goos, f.Goarch, f.FileType,
              webserver.wrapInt64 (f.Hits + 1), f.Version⟩ ∧
       ((webserver.Get st key).2).cache.lookup key =
         some ⟨f.Path, f.Goos, f.Goarch, f.FileType,
               webserver.wrapInt64 (f.Hits + 1), f.Version⟩ ∧
       ((webserver.Get st key).2).snapshot = st.snapshot ∧
       (-9223372036854775808 ≤ f.Hits → f.Hits < 9223372036854775807 →
          webserver.wrapInt64 (f.Hits + 1) = f.Hits + 1 ∧
          f.Hits < webserver.wrapInt64 (f.Hits + 1)) ∧
       (webserver.Get ((webserver.Get st key).2) key).1 =
         .ok ⟨f.Path, f.Goos, f.Goarch, f.FileType,
              webserver.wrapInt64 (webserver.wrapInt64 (f.Hits + 1) + 1), f.Version⟩) ∧
    (st.cache.lookup key = none →
       webserver.Get st key = (.error ("Unable to find cache entry: " ++ key), st)) := by
  constructor
  · intro f h
    have h2 : ((webserver.Get st key).2).cache.lookup key =
        some ⟨f.Path, f.Goos, f.Goarch, f.FileType,
              webserver.wrapInt64 (f.Hits + 1), f.Version⟩ := by
      simp [webserver.Get, h, lookup_insert_self]
    refine ⟨by simp [webserver.Get, h], h2, by simp [webserver.Get, h], ?_, ?_⟩
    · intro hlo hhi
      unfold webserver.wrapInt64
      omega
    · simp [webserver.Get, h, lookup_insert_self]
  · intro h
    simp [webserver.Get, h]

/-- Witness for `get_spec`: on the fixture state, fetching key `"a"` bumps
the hit counter from 2 to 3 — the wrapping increment coincides with plain
increment this far below `MaxInt64` — and returns the record otherwise
unchanged. -/
theorem get_spec_witness :
    (webserver.Get st1 "a").1 =
      .ok ⟨"/cache/abcd", "linux", "amd64", "executable",
           webserver.wrapInt64 (2 + 1), "v1.0"⟩ ∧
    webserver.wrapInt64 (2 + 1) = 2 + 1 := by
  have h := (get_spec st1 "a").1 f1 rfl
  exact ⟨h.1, (h.2.2.2.1 (by decide) (by decide)).1⟩

/-- Counterexample to claim C5 as stated: with the stored hit counter at
`MaxInt64 = 9223372036854775807` — a state the startup snapshot load can
produce, since `json.Unmarshal` accepts any int64 `Hits` — a successful
`Get` does not strictly increase the stored hit counter: `Hits++` wraps to
`MinInt64 = -9223372036854775808`, strictly below the previous value, both
in the returned record and in the stored one. -/
theorem get_wrap_counterexample :
    (webserver.Get stMax "a").1 =
      .ok ⟨"/cache/abcd", "linux", "amd64", "executable",
           -9223372036854775808, "v1.0"⟩ ∧
    ((webserver.Get stMax "a").2).cache.lookup "a" =
      some ⟨"/cache/abcd", "linux", "amd64", "executable",
            -9223372036854775808, "v1.0"⟩ ∧
    fMax.Hits = 9223372036854775807 ∧
    (-9223372036854775808 : Int) < 9223372036854775807 :=
  ⟨rfl, rfl, rfl, by decide⟩

/-- Claim C4: deleting a present key removes the entry from the map and
rewrites the durable snapshot regardless of whether removing the artifact
file succeeds — afterwards `Get` fails with not-found and no `List` result
contains the key, even when `os.Remove` failed — while the file-removal
error, if any, is what `Delete` returns although the cache is already
mutated; deleting an absent key fails with not-found and changes nothing. -/
theorem delete_spec (st : webserver.BMState) (key : String) (removeErr : Option String) :
    (∀ e, st.cache.lookup key = some e →
       ((webserver.Delete st key removeErr).2).cache.lookup key = none ∧
       ((webserver.Delete st key removeErr).2).cache =
         webserver.Cache.eraseKey key st.cache ∧
       ((webserver.Delete st key removeErr).2).snapshot =
         webserver.encodeCache (webserver.Cache.eraseKey key st.cache) ∧
       (∀ q, q ≠ key →
          ((webserver.Delete st key removeErr).2).cache.lookup q = st.cache.lookup q) ∧
       (webserver.Get ((webserver.Delete st key removeErr).2) key).1 =
         .error ("Unable to find cache entry: " ++ key) ∧
       (∀ gm pat res,
          webserver.List gm ((webserver.Delete st key removeErr).2) pat = .ok res →
          res.lookup key = none) ∧
       (∀ msg, removeErr = some msg →
          (webserver.Delete st key removeErr).1 = .error msg) ∧
       (removeErr = none → (webserver.Delete st key removeErr).1 = .ok ())) ∧
    (st.cache.lookup key = none →
       webserver.Delete st key removeErr = (.error ("Unable to find cache entry: " ++ key), st)) := by
  constructor
  · intro e h
    have hcache : ((webserver.Delete st key removeErr).2).cache =
        webserver.Cache.eraseKey key st.cache := by
      cases removeErr <;> simp [webserver.Delete, h]
    have hnone : ((webserver.Delete st key removeErr).2).cache.lookup key = none := by
      rw [hcache]; exact lookup_filterOut_self st.cache key
    refine ⟨hnone, hcache, ?_, ?_, ?_, ?_, ?_, ?_⟩
    · cases removeErr <;> simp [webserver.Delete, h]
    · intro q hq
      rw [hcache]
      exact lookup_filterOut_ne st.cache key q hq
    · simp [webserver.Get, hnone]
    · intro gm pat res hres
      have : res = ((webserver.Delete st key removeErr).2).cache.filter
          (fun e => pat == "" || (gm pat e.1).getD false ||
            (gm pat e.2.Goos).getD false || (gm pat e.2.Goarch).getD false) := by
        unfold webserver.List at hres
        rcases hgm : gm pat "" with _ | b <;> rw [hgm] at hres
        · exact absurd hres (by simp)
        · simpa using hres.symm
      rw [this]
      exact lookup_none_filter _ _ _ hnone
    · intro msg hmsg
      simp [webserver.Delete, h, hmsg]
    · intro hnoerr
      simp [webserver.Delete, h, hnoerr]
  · intro h
    cases removeErr <;> simp [webserver.Delete, h]

/-- Witness for `delete_spec`: deleting key `"a"` from the fixture state
while the file removal fails still removes the entry, and the failure is
returned. -/
theorem delete_spec_witness :
    ((webserver.Delete st1 "a" (some "unlink failed")).2).cache.lookup "a" = none ∧
    (webserver.Delete st1 "a" (some "unlink failed")).1 = .error "unlink failed" := by
  have h := (delete_spec st1 "a" (some "unlink failed")).1 f1 rfl
  exact ⟨h.1, (h.2.2.2.2.2.2.1) "unlink failed" rfl⟩

/-- Claim C6: `List` with an empty filter returns every cached record;
with a well-formed non-empty glob it returns exactly the records whose
lookup key, operating system or architecture matches (any of the three
suffices); with a malformed pattern — one the glob matcher rejects already
on the probe `Match(filter, "")` — it fails with the malformed-filter error
and returns no records. -/
theorem list_spec (gm : String → String → Option Bool) (st : webserver.BMState)
    (pat : String) :
    (gm pat "" = none → webserver.List gm st pat = .error "Filter is not well formed") ∧
    (∀ b, gm pat "" = some b →
       (pat = "" → webserver.List gm st pat = .ok st.cache) ∧
       (∃ res, webserver.List gm st pat = .ok res ∧
          ∀ k f, (k, f) ∈ res ↔
            ((k, f) ∈ st.cache ∧
             (pat = "" ∨ (gm pat k).getD false = true ∨
              (gm pat f.Goos).getD false = true ∨
              (gm pat f.Goarch).getD false = true)))) := by
  constructor
  · intro h; simp [webserver.List, h]
  · intro b hb
    constructor
    · intro hpat
      subst hpat
      simp [webserver.List, hb]
    · refine ⟨st.cache.filter
          (fun e => pat == "" || (gm pat e.1).getD false ||
            (gm pat e.2.Goos).getD false || (gm pat e.2.Goarch).getD false),
        by simp [webserver.List, hb], ?_⟩
      intro k f
      rw [List.mem_filter]
      simp [Bool.or_eq_true, beq_iff_eq, or_assoc]

/-- Witness for `list_spec`: under the exact-match glob oracle, listing the
fixture state with the empty filter returns the whole cache. -/
theorem list_spec_witness :
    webserver.List gmEq st1 "" = .ok st1.cache :=
  (((list_spec gmEq st1 "").2 true rfl).1) rfl

/-- Claim C2: when the resolved lookup key — operator-supplied, or drawn from
the random source when the supplied name is empty — is already present in
the cache, `Build` fails with the name-collision error and leaves the state
(and hence the existing record with its path, hit count and version)
untouched. -/
theorem build_name_collision (env : webserver.BuildEnv) (fx : webserver.BuildFx)
    (st : webserver.BMState) (goos goarch addr fp name : String) (shared : Bool)
    (key : String) (f : webserver.file)
    (hOn : env.webserverOn = true)
    (harch : goarch = "" ∨ goarch ∈ env.validArchs)
    (hos : goos = "" ∨ goos ∈ env.validPlatforms)
    (hfn : fx.randFilename.isSome = true)
    (hname : (if name = "" then fx.randName else some name) = some key)
    (hcol : st.cache.lookup key = some f) :
    webserver.Build env fx st goos goarch addr fp name shared =
      (.error "This link name is already in use", st) ∧
    ((webserver.Build env fx st goos goarch addr fp name shared).2).cache.lookup key =
      some f := by
  obtain ⟨fn, hfn'⟩ := Option.isSome_iff_exists.mp hfn
  have h1 : ¬(goarch ≠ "" ∧ goarch ∉ env.validArchs) := by
    rcases harch with h | h <;> simp [h]
  have h2 : ¬(goos ≠ "" ∧ goos ∉ env.validPlatforms) := by
    rcases hos with h | h <;> simp [h]
  have hmain : webserver.Build env fx st goos goarch addr fp name shared =
      (.error "This link name is already in use", st) := by
    simp [webserver.Build, hOn, h1, h2, hfn', hname, hcol]
  exact ⟨hmain, by rw [hmain]; exact hcol⟩

/-- Witness for `build_name_collision`: rebuilding under the occupied key
`"a"` on the fixture state is rejected and the state survives unchanged. -/
theorem build_name_collision_witness :
    webserver.Build env1 fx1 st1 "linux" "amd64" "" "" "a" false =
      (.error "This link name is already in use", st1) :=
  (build_name_collision env1 fx1 st1 "linux" "amd64" "" "" "a" false "a" f1
    rfl (Or.inr (by simp [env1])) (Or.inr (by simp [env1])) rfl rfl rfl).1

theorem listStarts_self (l : List Char) : listStarts l l = true := by
  induction l with
  | nil => rfl
  | cons c rest ih => simp [listStarts, ih]

theorem listHasSub_self (n : List Char) : listHasSub n n = true := by
  cases n with
  | nil => rfl
  | cons c rest => simp [listHasSub, listStarts_self]

theorem listHasSub_suffix (m n : List Char) : listHasSub n (m ++ n) = true := by
  induction m with
  | nil => simpa using listHasSub_self n
  | cons c ms ih =>
    cases h : ms ++ n with
    | nil => simp [listHasSub, h] at ih ⊢; exact Or.inr ih
    | cons d rest => simp [listHasSub, h] at ih ⊢; exact Or.inr ih

theorem strMentions_suffix (a b : String) : strMentions (a ++ b) b = true := by
  simpa [strMentions] using listHasSub_suffix a.data b.data

/-- Claim C1 (amended): with the webserver enabled, a request whose non-empty
architecture is outside the catalog fails with a validation error naming the
architecture, and a request whose architecture passes (empty or valid) but
whose non-empty operating system is outside the catalog fails with a
validation error naming the operating system; in both cases the state, and
so the cache, is returned unchanged.  The architecture is validated first,
so `Build("darwin","arm64",...)` names `darwin` only when `arm64` is in the
catalog's architecture set — against a catalog lacking both, the error
names `arm64` (see the counterexample). -/
theorem build_invalid_target (env : webserver.BuildEnv) (fx : webserver.BuildFx)
    (st : webserver.BMState) (goos goarch addr fp name : String) (shared : Bool)
    (hOn : env.webserverOn = true) :
    (goarch ≠ "" → goarch ∉ env.validArchs →
       webserver.Build env fx st goos goarch addr fp name shared =
         (.error ("GOARCH supplied is not valid: " ++ goarch), st) ∧
       strMentions ("GOARCH supplied is not valid: " ++ goarch) goarch = true) ∧
    ((goarch = "" ∨ goarch ∈ env.validArchs) → goos ≠ "" → goos ∉ env.validPlatforms →
       webserver.Build env fx st goos goarch addr fp name shared =
         (.error ("GOOS supplied is not valid: " ++ goos), st) ∧
       strMentions ("GOOS supplied is not valid: " ++ goos) goos = true) := by
  constructor
  · intro hne hnotin
    have h : goarch ≠ "" ∧ goarch ∉ env.validArchs := ⟨hne, hnotin⟩
    exact ⟨by simp [webserver.Build, hOn, h], strMentions_suffix _ _⟩
  · intro harch hne hnotin
    have h1 : ¬(goarch ≠ "" ∧ goarch ∉ env.validArchs) := by
      rcases harch with h | h <;> simp [h]
    have h2 : goos ≠ "" ∧ goos ∉ env.validPlatforms := ⟨hne, hnotin⟩
    exact ⟨by simp [webserver.Build, hOn, h1, h2], strMentions_suffix _ _⟩

/-- Witness for `build_invalid_target`: requesting darwin/arm64 against the
fixture catalog (which has arm64 invalid too) fails naming `arm64`, and
requesting darwin/amd64 (architecture valid) fails naming `darwin`; both
leave the state unchanged. -/
theorem build_invalid_target_witness :
    webserver.Build env1 fx1 st1 "darwin" "arm64" "" "" "n" false =
      (.error "GOARCH supplied is not valid: arm64", st1) ∧
    webserver.Build env1 fx1 st1 "darwin" "amd64" "" "" "n" false =
      (.error "GOOS supplied is not valid: darwin", st1) :=
  ⟨((build_invalid_target env1 fx1 st1 "darwin" "arm64" "" "" "n" false rfl).1
      (by decide) (by decide)).1,
   ((build_invalid_target env1 fx1 st1 "darwin" "amd64" "" "" "n" false rfl).2
      (Or.inr (by decide)) (by decide) (by decide)).1⟩

/-- Counterexample to claim C1 as stated: against the catalog
`{linux, windows} × {amd64}` — which lacks `darwin` — the request
`Build("darwin","arm64",...)` fails with the error
`GOARCH supplied is not valid: arm64`, a message that does not name
`darwin`: the architecture check runs first. -/
theorem build_darwin_arm64_counterexample :
    (webserver.Build env1 fx1 st0 "darwin" "arm64" "host.example:443" "ab12" "n" false).1 =
      .error "GOARCH supplied is not valid: arm64" ∧
    "darwin" ∉ env1.validPlatforms ∧
    strMentions "GOARCH supplied is not valid: arm64" "darwin" = false :=
  ⟨rfl, by decide, by decide⟩

/-- Claim C7 (amended): on every successful shared-object build, the
native-interop compiler placed into the build environment is
`crossCompilerFor` of the host OS and the resolved target — which is the
mingw cross toolchain exactly when the HOST OS is `linux` (any host
architecture) and the target is windows/amd64, and the empty string (host
default) for every other combination.  The source checks `runtime.GOOS ==
"linux"`, not "non-Windows amd64 host" (see the counterexample). -/
theorem build_cross_compiler (env : webserver.BuildEnv) (fx : webserver.BuildFx)
    (st : webserver.BMState) (goos goarch addr fp name fn key : String)
    (hOn : env.webserverOn = true)
    (harch : goarch = "" ∨ goarch ∈ env.validArchs)
    (hos : goos = "" ∨ goos ∈ env.validPlatforms)
    (hfn : fx.randFilename = some fn)
    (hname : (if name = "" then fx.randName else some name) = some key)
    (hnocol : st.cache.lookup key = none)
    (hok : fx.compileOk = true) :
    ((webserver.Build env fx st goos goarch addr fp name true).1).map
        (fun out => out.cmdEnv) =
      .ok (env.baseEnv ++
        ["GOOS=" ++ (if goos ≠ "" then goos else env.hostGoos),
         "GOARCH=" ++ (if goarch ≠ "" then goarch else env.hostGoarch),
         "CC=" ++ webserver.crossCompilerFor env.hostGoos
           (if goos ≠ "" then goos else env.hostGoos)
           (if goarch ≠ "" then goarch else env.hostGoarch),
         "CGO_ENABLED=1"]) ∧
    (∀ h o a, (webserver.crossCompilerFor h o a = "x86_64-w64-mingw32-gcc" ↔
        (h = "linux" ∧ o = "windows" ∧ a = "amd64")) ∧
      (¬(h = "linux" ∧ o = "windows" ∧ a = "amd64") →
        webserver.crossCompilerFor h o a = "")) := by
  have h1 : ¬(goarch ≠ "" ∧ goarch ∉ env.validArchs) := by
    rcases harch with h | h <;> simp [h]
  have h2 : ¬(goos ≠ "" ∧ goos ∉ env.validPlatforms) := by
    rcases hos with h | h <;> simp [h]
  constructor
  · have hlook : (st.cache.lookup key).isSome = false := by simp [hnocol]
    simp [webserver.Build, hOn, h1, h2, hfn, hname, hnocol, hok, Except.map]
  · intro h o a
    constructor
    · unfold webserver.crossCompilerFor
      by_cases hc : h = "linux" ∧ o = "windows" ∧ a = "amd64" <;> simp [hc]
    · intro hc
      simp [webserver.crossCompilerFor, hc]

/-- Witness for `build_cross_compiler`: a successful shared windows/amd64
build on the Linux/amd64 fixture host selects the mingw cross compiler. -/
theorem build_cross_compiler_witness :
    ((webserver.Build env1 fx1 st0 "windows" "amd64" "h:443" "fp" "n" true).1).map
        (fun out => out.cmdEnv) =
      .ok ["GOOS=windows", "GOARCH=amd64", "CC=x86_64-w64-mingw32-gcc", "CGO_ENABLED=1"] := by
  have h := (build_cross_compiler env1 fx1 st0 "windows" "amd64" "h:443" "fp" "n" "f16" "n"
    rfl (Or.inr (by decide)) (Or.inr (by decide)) rfl rfl rfl rfl).1
  simpa [env1, webserver.crossCompilerFor] using h

/-- Counterexample to claim C7 as stated: a successful shared-object build
for windows/amd64 from a Darwin host — a non-Windows amd64 host — leaves the
native-interop compiler empty (`CC=` with no value, i.e. host default)
rather than selecting `x86_64-w64-mingw32-gcc`: the source tests the host
OS for equality with `linux`, not for being non-Windows. -/
theorem build_darwin_host_counterexample :
    ((webserver.Build envDarwin fx1 st0 "windows" "amd64" "h:443" "fp" "n" true).1).map
        (fun out => out.cmdEnv) =
      .ok ["GOOS=windows", "GOARCH=amd64", "CC=", "CGO_ENABLED=1"] ∧
    envDarwin.hostGoos = "darwin" ∧ envDarwin.hostGoarch = "amd64" ∧
    "CC=x86_64-w64-mingw32-gcc" ∉ ["GOOS=windows", "GOARCH=amd64", "CC=", "CGO_ENABLED=1"] :=
  ⟨rfl, rfl, rfl, by decide⟩

/-- Claim C10: during startup preparation (after the client-source and
toolchain checks pass), if stat of the cache directory path fails with any
error other than does-not-exist — a permission error, say — the nil
`FileInfo` flows into the unconditional `info.IsDir()` call and the process
panics (`StartResult.nilPanic`) instead of returning a configuration error;
the clean failure branch fires only when the path exists but is a file
rather than a directory. -/
theorem start_stat_nil_deref (w : webserver.StartWorld) (st : webserver.BMState)
    (cPath : String)
    (hsrc : w.clientSourceStat = .found true)
    (hdist : w.distListErr = none) :
    (∀ e, w.cacheStat1 = .otherErr e →
       (webserver.startBuildManager w st cPath).1 = .nilPanic) ∧
    (w.cacheStat1 = .found false →
       (webserver.startBuildManager w st cPath).1 =
         .ret (some ("Cache path '" ++ cPath ++ "' already exists, but is a file instead of directory")) st) := by
  constructor
  · intro e he
    simp [webserver.startBuildManager, hsrc, hdist, he]
  · intro he
    simp [webserver.startBuildManager, webserver.startFinish, hsrc, hdist, he]

/-- Witness for `start_stat_nil_deref`: a world whose cache-path stat fails
with `permission denied` drives startup into the nil dereference. -/
theorem start_stat_nil_deref_witness :
    (webserver.startBuildManager wPerm st0 "/cache").1 = .nilPanic :=
  (start_stat_nil_deref wPerm st0 "/cache" rfl rfl).1 "permission denied" rfl


namespace client

theorem splitChar_ne_nil (sep : Char) (s : List Char) : splitChar sep s ≠ [] := by
  induction s with
  | nil => simp [splitChar]
  | cons c rest ih =>
    by_cases h : c = sep
    · simp [splitChar, h]
    · simp only [splitChar, if_neg h]
      rcases hr : splitChar sep rest with _ | ⟨hd, tl⟩
      · simp
      · simp

theorem splitChar_single (sep : Char) (s a : List Char) :
    splitChar sep s = [a] ↔ (s = a ∧ sep ∉ a) := by
  induction s generalizing a with
  | nil =>
    constructor
    · intro hx
      have ha : [] = a := by simpa [splitChar] using hx
      refine ⟨ha, ?_⟩
      rw [← ha]
      simp
    · rintro ⟨rfl, -⟩
      rfl
  | cons c rest ih =>
    by_cases h : c = sep
    · subst h
      simp only [splitChar, if_pos rfl]
      constructor
      · intro hx
        rcases hr : splitChar c rest with _ | ⟨hd, tl⟩
        · exact absurd hr (splitChar_ne_nil c rest)
        · rw [hr] at hx
          simp at hx
      · rintro ⟨rfl, hmem⟩
        simp at hmem
    · simp only [splitChar, if_neg h]
      rcases hr : splitChar sep rest with _ | ⟨hd, tl⟩
      · exact absurd hr (splitChar_ne_nil sep rest)
      · constructor
        · intro hx
          simp at hx
          obtain ⟨ha, htl⟩ := hx
          have := (ih hd).mp (by rw [hr, htl])
          refine ⟨by rw [← ha, this.1.symm], ?_⟩
          rw [← ha]
          intro hmem
          rcases List.mem_cons.mp hmem with h1 | h2
          · exact h (h1.symm)
          · exact this.2 h2
        · rintro ⟨rfl, hmem⟩
          have hm2 : sep ∉ rest := fun hx => hmem (List.mem_cons_of_mem _ hx)
          have := (ih rest).mpr ⟨rfl, hm2⟩
          rw [hr] at this
          simp at this
          simp [this.1, this.2]

theorem splitChar_pair (sep : Char) (s : List Char) : ∀ a b : List Char,
    splitChar sep s = [a, b] ↔ (s = a ++ sep :: b ∧ sep ∉ a ∧ sep ∉ b) := by
  induction s with
  | nil =>
    intro a b
    constructor
    · intro hx
      exact absurd hx (by simp [splitChar])
    · rintro ⟨hs, -, -⟩
      exact absurd hs (by simp)
  | cons c rest ih =>
    intro a b
    by_cases h : c = sep
    · subst h
      have hstep : splitChar c (c :: rest) = [] :: splitChar c rest := by
        simp [splitChar]
      rw [hstep]
      constructor
      · intro hx
        rw [List.cons_eq_cons] at hx
        obtain ⟨ha, hb⟩ := hx
        have hb2 := (splitChar_single c rest b).mp hb
        refine ⟨?_, ?_, hb2.2⟩
        · rw [← ha, hb2.1]
          rfl
        · rw [← ha]
          simp
      · rintro ⟨hs, hma, hmb⟩
        rcases a with _ | ⟨x, xs⟩
        · simp at hs
          rw [List.cons_eq_cons]
          exact ⟨rfl, (splitChar_single c rest b).mpr ⟨hs, hmb⟩⟩
        · rw [List.cons_append, List.cons_eq_cons] at hs
          exact absurd (hs.1.symm ▸ List.mem_cons_self x xs) hma
    · rcases hr : splitChar sep rest with _ | ⟨hd, tl⟩
      · exact absurd hr (splitChar_ne_nil sep rest)
      · have hstep : splitChar sep (c :: rest) = (c :: hd) :: tl := by
          simp [splitChar, h, hr]
        rw [hstep]
        constructor
        · intro hx
          rw [List.cons_eq_cons] at hx
          obtain ⟨ha, htl⟩ := hx
          have hpair : splitChar sep rest = [hd, b] := by rw [hr, htl]
          have hrest := (ih hd b).mp hpair
          refine ⟨?_, ?_, hrest.2.2⟩
          · rw [← ha, hrest.1]
            rfl
          · rw [← ha]
            intro hmem
            rcases List.mem_cons.mp hmem with h1 | h2
            · exact h h1.symm
            · exact hrest.2.1 h2
        · rintro ⟨hs, hma, hmb⟩
          rcases a with _ | ⟨x, xs⟩
          · simp at hs
            exact absurd hs.1 h
          · rw [List.cons_append, List.cons_eq_cons] at hs
            obtain ⟨hx, hrest⟩ := hs
            have hmxs : sep ∉ xs := fun hq => hma (List.mem_cons_of_mem _ hq)
            have hp := (ih xs b).mpr ⟨hrest, hmxs, hmb⟩
            rw [hr, List.cons_eq_cons] at hp
            rw [List.cons_eq_cons]
            exact ⟨by rw [hx, hp.1], hp.2⟩

theorem splitFirst_ne_nil (sep : Char) (s : List Char) : splitFirst sep s ≠ [] := by
  induction s with
  | nil => simp [splitFirst]
  | cons c rest ih =>
    by_cases h : c = sep
    · simp [splitFirst, h]
    · simp only [splitFirst, if_neg h]
      rcases hr : splitFirst sep rest with _ | ⟨hd, tl⟩
      · simp
      · simp

theorem splitFirst_single (sep : Char) (s : List Char) : ∀ a : List Char,
    splitFirst sep s = [a] ↔ (s = a ∧ sep ∉ a) := by
  induction s with
  | nil =>
    intro a
    constructor
    · intro hx
      have ha : [] = a := by simpa [splitFirst] using hx
      refine ⟨ha, ?_⟩
      rw [← ha]
      simp
    · rintro ⟨rfl, -⟩
      rfl
  | cons c rest ih =>
    intro a
    by_cases h : c = sep
    · subst h
      have hstep : splitFirst c (c :: rest) = [[], rest] := by simp [splitFirst]
      rw [hstep]
      constructor
      · intro hx
        simp at hx
      · rintro ⟨rfl, hmem⟩
        simp at hmem
    · rcases hr : splitFirst sep rest with _ | ⟨hd, tl⟩
      · exact absurd hr (splitFirst_ne_nil sep rest)
      · have hstep : splitFirst sep (c :: rest) = (c :: hd) :: tl := by
          simp [splitFirst, h, hr]
        rw [hstep]
        constructor
        · intro hx
          rw [List.cons_eq_cons] at hx
          obtain ⟨ha, htl⟩ := hx
          have hone : splitFirst sep rest = [hd] := by rw [hr, htl]
          have hrest := (ih hd).mp hone
          refine ⟨?_, ?_⟩
          · rw [← ha, hrest.1]
          · rw [← ha]
            intro hmem
            rcases List.mem_cons.mp hmem with h1 | h2
            · exact h h1.symm
            · exact hrest.2 h2
        · rintro ⟨hs, hma⟩
          rcases a with _ | ⟨x, xs⟩
          · exact absurd hs (by simp)
          · rw [List.cons_eq_cons] at hs
            obtain ⟨hx, hrest⟩ := hs
            have hmxs : sep ∉ xs := fun hq => hma (List.mem_cons_of_mem _ hq)
            have hp := (ih xs).mpr ⟨hrest.symm.symm, hmxs⟩
            rw [hr, List.cons_eq_cons] at hp
            rw [List.cons_eq_cons]
            exact ⟨by rw [hx, hp.1], hp.2⟩

theorem splitFirst_pair (sep : Char) (s : List Char) : ∀ a b : List Char,
    splitFirst sep s = [a, b] ↔ (s = a ++ sep :: b ∧ sep ∉ a) := by
  induction s with
  | nil =>
    intro a b
    constructor
    · intro hx
      exact absurd hx (by simp [splitFirst])
    · rintro ⟨hs, -⟩
      exact absurd hs (by simp)
  | cons c rest ih =>
    intro a b
    by_cases h : c = sep
    · subst h
      have hstep : splitFirst c (c :: rest) = [[], rest] := by simp [splitFirst]
      rw [hstep]
      constructor
      · intro hx
        rw [List.cons_eq_cons] at hx
        obtain ⟨ha, hb⟩ := hx
        have hb2 : rest = b := by simpa using hb
        refine ⟨?_, ?_⟩
        · rw [← ha, hb2]
          rfl
        · rw [← ha]
          simp
      · rintro ⟨hs, hma⟩
        rcases a with _ | ⟨x, xs⟩
        · simp at hs
          rw [List.cons_eq_cons]
          exact ⟨rfl, by rw [hs]⟩
        · rw [List.cons_append, List.cons_eq_cons] at hs
          exact absurd (hs.1.symm ▸ List.mem_cons_self x xs) hma
    · rcases hr : splitFirst sep rest with _ | ⟨hd, tl⟩
      · exact absurd hr (splitFirst_ne_nil sep rest)
      · have hstep : splitFirst sep (c :: rest) = (c :: hd) :: tl := by
          simp [splitFirst, h, hr]
        rw [hstep]
        constructor
        · intro hx
          rw [List.cons_eq_cons] at hx
          obtain ⟨ha, htl⟩ := hx
          have hpair : splitFirst sep rest = [hd, b] := by rw [hr, htl]
          have hrest := (ih hd b).mp hpair
          refine ⟨?_, ?_⟩
          · rw [← ha, hrest.1]
            rfl
          · rw [← ha]
            intro hmem
            rcases List.mem_cons.mp hmem with h1 | h2
            · exact h h1.symm
            · exact hrest.2 h2
        · rintro ⟨hs, hma⟩
          rcases a with _ | ⟨x, xs⟩
          · simp at hs
            exact absurd hs.1 h
          · rw [List.cons_append, List.cons_eq_cons] at hs
            obtain ⟨hx, hrest⟩ := hs
            have hmxs : sep ∉ xs := fun hq => hma (List.mem_cons_of_mem _ hq)
            have hp := (ih xs b).mpr ⟨hrest, hmxs⟩
            rw [hr, List.cons_eq_cons] at hp
            rw [List.cons_eq_cons]
            exact ⟨by rw [hx, hp.1], hp.2⟩

theorem parse_ok_iff (s : List Char) : ∀ d u p : List Char,
    parseNTLMCreds s = .ok (d, u, p) ↔ ntlmShape s d u p := by
  intro d u p
  constructor
  · intro hx
    unfold parseNTLMCreds at hx
    by_cases hnil : s = []
    · simp [hnil] at hx
    · rw [if_neg hnil] at hx
      rcases hsc : splitChar '\\' s with _ | ⟨x0, t0⟩
      · exact absurd hsc (splitChar_ne_nil _ s)
      · rw [hsc] at hx
        rcases t0 with _ | ⟨x1, t1⟩
        · simp at hx
        · rcases t1 with _ | ⟨x2, t2⟩
          · rcases hsf : splitFirst ':' x1 with _ | ⟨y0, s0⟩
            · exact absurd hsf (splitFirst_ne_nil _ x1)
            · rcases s0 with _ | ⟨y1, s1⟩
              · simp [hsf] at hx
              · rcases s1 with _ | ⟨y2, s2⟩
                · simp [hsf] at hx
                  obtain ⟨hd, hu, hp⟩ := hx
                  subst hd; subst hu; subst hp
                  have h1 := (splitChar_pair '\\' s x0 x1).mp hsc
                  have h2 := (splitFirst_pair ':' x1 y0 y1).mp hsf
                  refine ⟨?_, h1.2.1, ?_, ?_, h2.2⟩
                  · rw [h1.1, h2.1]
                  · intro hm
                    exact h1.2.2 (h2.1 ▸ List.mem_append_left _ hm)
                  · intro hm
                    exact h1.2.2 (h2.1 ▸ List.mem_append_right _ (List.mem_cons_of_mem _ hm))
                · simp [hsf] at hx
          · simp at hx
  · rintro ⟨hs, hmd, hmu, hmp, hcu⟩
    have hnil : s ≠ [] := by
      rw [hs]
      intro hcontra
      exact absurd (List.append_eq_nil.mp hcontra).2 (by simp)
    have hrestmem : '\\' ∉ u ++ ':' :: p := by
      intro hm
      rcases List.mem_append.mp hm with h1 | h2
      · exact hmu h1
      · rcases List.mem_cons.mp h2 with h3 | h4
        · exact absurd h3 (by decide)
        · exact hmp h4
    have hsc : splitChar '\\' s = [d, u ++ ':' :: p] :=
      (splitChar_pair '\\' s d (u ++ ':' :: p)).mpr ⟨hs, hmd, hrestmem⟩
    have hsf : splitFirst ':' (u ++ ':' :: p) = [u, p] :=
      (splitFirst_pair ':' (u ++ ':' :: p) u p).mpr ⟨rfl, hcu⟩
    simp [parseNTLMCreds, hnil, hsc, hsf]

/-- Claim C9: the proxy-credential parser rejects the empty string and every
malformed credential string, and accepts exactly the strings holding exactly
one backslash whose portion after the backslash holds at least one colon —
equivalently, the strings of shape `domain ++ "\\" ++ user ++ ":" ++ pass`
with no backslash in `domain`, `user` or `pass` and no colon in `user`; on
acceptance it returns that very decomposition, so `pass` (the remainder
after the first colon) may itself hold colons but never a backslash. -/
theorem parse_ntlm_spec (s : List Char) :
    (∀ d u p, parseNTLMCreds s = .ok (d, u, p) ↔ ntlmShape s d u p) ∧
    ((∃ e, parseNTLMCreds s = .error e) ↔ ¬ ∃ d u p, ntlmShape s d u p) := by
  refine ⟨parse_ok_iff s, ?_, ?_⟩
  · rintro ⟨e, he⟩ ⟨d, u, p, hshape⟩
    have hok := (parse_ok_iff s d u p).mpr hshape
    rw [he] at hok
    exact Except.noConfusion hok
  · intro hno
    cases hres : parseNTLMCreds s with
    | error e => exact ⟨e, rfl⟩
    | ok val =>
      obtain ⟨d, u, p⟩ := val
      exact absurd ⟨d, u, p, (parse_ok_iff s d u p).mp hres⟩ hno

end client

/-- Witness for `parse_ntlm_spec`: the credential string `DOM\user:pa:ss`
is accepted with domain `DOM`, user `user` and password `pa:ss` (the
password keeps its colon). -/
theorem parse_ntlm_spec_witness :
    client.parseNTLMCreds "DOM\\user:pa:ss".data =
      .ok ("DOM".data, "user".data, "pa:ss".data) :=
  ((client.parse_ntlm_spec "DOM\\user:pa:ss".data).1
    "DOM".data "user".data "pa:ss".data).mpr
    ⟨by decide, by decide, by decide, by decide, by decide⟩
